import Mathlib

/-!
Verification of the `aare-edge` HIPAA compliance engine
(`src/verification/rules.py` and `src/verification/verifier.py`)
against its natural-language specification.

The Python code is shallowly embedded: dataclasses become structures,
lists stay lists, Python `int` becomes `Int`, `float` confidences become
`Rat` (no arithmetic is ever performed on them), and dictionaries with
string keys become association lists.  The Z3 solver calls of
`HIPAAVerifier.verify` are embedded as an explicit propositional
constraint language with a satisfiability predicate, and the branch the
code takes on `solver.check()` is justified against that predicate.

Python's `list(set(...))` enumerates a hash set in an order the language
does not specify; it is embedded as a parameter `setEnum` ranging over
all functions that enumerate the distinct elements of their input list.
-/

namespace AareEdge

/-- Embeds the dataclass `PHIDetection` of `rules.py`.  The Python field
`end` is a Lean keyword and is named `endPos` here. -/
structure PHIDetection where
  category : String
  value : String
  start : Int
  endPos : Int
  confidence : Rat
deriving DecidableEq, Repr

/-- Embeds the dataclass `HIPAARule` of `rules.py`. -/
structure HIPAARule where
  id : String
  name : String
  description : String
  categories : List String
  prohibition_type : String
  condition : Option String
deriving DecidableEq, Repr

/-- One entry of the `categories` array of the policy configuration. -/
structure CategoryConfig where
  id : Nat
  name : String
  prohibited : Bool
deriving DecidableEq, Repr

/-- Modelled from the spec: the policy configuration file
(`configs/hipaa-v1.json`, loaded by `src/data/label_mapper.load_hipaa_config`)
is not among the verification sources.  The spec fixes it: exactly 18
categories, ids 1..18 in order, every one prohibited, with the names of
the fixed catalogue (the same names `rules.py` hardcodes in
`_build_rules` and the repository tests assert for
`get_prohibited_categories`). -/
def configCategories : List CategoryConfig :=
  [⟨1, "NAMES", true⟩,
   ⟨2, "GEOGRAPHIC_SUBDIVISIONS", true⟩,
   ⟨3, "DATES", true⟩,
   ⟨4, "PHONE_NUMBERS", true⟩,
   ⟨5, "FAX_NUMBERS", true⟩,
   ⟨6, "EMAIL_ADDRESSES", true⟩,
   ⟨7, "SSN", true⟩,
   ⟨8, "MEDICAL_RECORD_NUMBERS", true⟩,
   ⟨9, "HEALTH_PLAN_BENEFICIARY_NUMBERS", true⟩,
   ⟨10, "ACCOUNT_NUMBERS", true⟩,
   ⟨11, "CERTIFICATE_LICENSE_NUMBERS", true⟩,
   ⟨12, "VEHICLE_IDENTIFIERS", true⟩,
   ⟨13, "DEVICE_IDENTIFIERS", true⟩,
   ⟨14, "WEB_URLS", true⟩,
   ⟨15, "IP_ADDRESSES", true⟩,
   ⟨16, "BIOMETRIC_IDENTIFIERS", true⟩,
   ⟨17, "PHOTOGRAPHIC_IMAGES", true⟩,
   ⟨18, "ANY_OTHER_UNIQUE_IDENTIFYING_NUMBER", true⟩]

/-- Embeds `HIPAARules.get_prohibited_categories`: the names of the configured
categories whose `prohibited` flag is set. -/
def get_prohibited_categories : List String :=
  (configCategories.filter (fun c => c.prohibited)).map (fun c => c.name)

/-- Embeds `HIPAARules.is_prohibited`: membership test in the prohibited list. -/
def is_prohibited (category : String) : Bool :=
  get_prohibited_categories.contains category

/-- The `(rule id, category, description)` triples of the
`absolute_prohibitions` table in `HIPAARules._build_rules`. -/
def absolute_prohibitions : List (String × String × String) :=
  [("R1", "NAMES", "Names must be removed"),
   ("R2", "GEOGRAPHIC_SUBDIVISIONS", "Geographic data smaller than state must be removed"),
   ("R3", "DATES", "Dates (except year) must be removed"),
   ("R4", "PHONE_NUMBERS", "Phone numbers must be removed"),
   ("R5", "FAX_NUMBERS", "Fax numbers must be removed"),
   ("R6", "EMAIL_ADDRESSES", "Email addresses must be removed"),
   ("R7", "SSN", "Social Security numbers must be removed"),
   ("R8", "MEDICAL_RECORD_NUMBERS", "Medical record numbers must be removed"),
   ("R9", "HEALTH_PLAN_BENEFICIARY_NUMBERS", "Health plan beneficiary numbers must be removed"),
   ("R10", "ACCOUNT_NUMBERS", "Account numbers must be removed"),
   ("R11", "CERTIFICATE_LICENSE_NUMBERS", "Certificate/license numbers must be removed"),
   ("R12", "VEHICLE_IDENTIFIERS", "Vehicle identifiers must be removed"),
   ("R13", "DEVICE_IDENTIFIERS", "Device identifiers must be removed"),
   ("R14", "WEB_URLS", "Web URLs must be removed"),
   ("R15", "IP_ADDRESSES", "IP addresses must be removed"),
   ("R16", "BIOMETRIC_IDENTIFIERS", "Biometric identifiers must be removed"),
   ("R17", "PHOTOGRAPHIC_IMAGES", "Full-face photos must be removed"),
   ("R18", "ANY_OTHER_UNIQUE_IDENTIFYING_NUMBER", "Other unique identifiers must be removed")]

/-- Embeds `HIPAARules._build_rules`: the 18 absolute rules built from the table,
followed by the two conditional rules R19 and R20. -/
def build_rules : List HIPAARule :=
  (absolute_prohibitions.map (fun t =>
    { id := t.1
      name := "Prohibition of " ++ t.2.1
      description := t.2.2
      categories := [t.2.1]
      prohibition_type := "absolute"
      condition := none }))
  ++ [{ id := "R19"
        name := "Age Over 89"
        description := "Ages over 89 must be aggregated to 90+"
        categories := ["DATES"]
        prohibition_type := "conditional"
        condition := some "age > 89" },
      { id := "R20"
        name := "ZIP Code Population"
        description := "ZIP codes with population < 20,000 must be zeroed"
        categories := ["GEOGRAPHIC_SUBDIVISIONS"]
        prohibition_type := "conditional"
        condition := some "zip_population < 20000" }]

/-- Embeds `HIPAARules.get_rules_for_category`: all rules listing the category. -/
def get_rules_for_category (category : String) : List HIPAARule :=
  build_rules.filter (fun r => r.categories.contains category)

/-- Embeds `HIPAARules.get_rule_by_id`: first rule with the given id, if any. -/
def get_rule_by_id (rule_id : String) : Option HIPAARule :=
  build_rules.find? (fun r => r.id == rule_id)

/-! ### The Z3 constraint model

`create_z3_constraints` introduces one boolean variable
`f"{category}_detected"` per prohibited category and fixes it to whether a
detection of that category exists; `verify` then pushes the single
constraint `Not(Or(prohibited_vars))` and asks the solver.  A variable
assignment is a function from variable names to booleans. -/

/-- A constraint the code hands to the solver: either an equation fixing
one boolean variable, or the negated disjunction of a list of variables. -/
inductive ZConstraint where
  | eqBool (var : String) (b : Bool)
  | notOr (vars : List String)
deriving DecidableEq, Repr

/-- Truth of one constraint under an assignment of the solver variables. -/
def ZConstraint.holdsUnder (σ : String → Bool) : ZConstraint → Prop
  | .eqBool v b => σ v = b
  | .notOr vs => ∀ v ∈ vs, σ v = false

/-- A constraint set is satisfiable when some assignment makes every
constraint true — the semantics the Z3 `Solver.check` call decides. -/
def satisfiable (cs : List ZConstraint) : Prop :=
  ∃ σ : String → Bool, ∀ c ∈ cs, c.holdsUnder σ

/-- The solver variable `f"{category}_detected"` of `create_z3_constraints`. -/
def categoryVar (category : String) : String :=
  category ++ "_detected"

/-- Embeds `category in detected_categories` of `create_z3_constraints`: whether
some detection carries exactly this category name. -/
def category_detected (detections : List PHIDetection) (category : String) : Bool :=
  detections.any (fun d => d.category == category)

/-- Embeds `HIPAARules.create_z3_constraints`: one equation per prohibited
category, fixing its variable to the presence of a detection of it. -/
def create_z3_constraints (detections : List PHIDetection) : List ZConstraint :=
  get_prohibited_categories.map (fun c =>
    ZConstraint.eqBool (categoryVar c) (category_detected detections c))

/-- The whole constraint set `HIPAAVerifier.verify` checks inside its
`push`/`pop` frame: the category equations plus `Not(Or(prohibited_vars))`. -/
def verifyConstraints (detections : List PHIDetection) : List ZConstraint :=
  create_z3_constraints detections
  ++ [ZConstraint.notOr (get_prohibited_categories.map categoryVar)]

/-- The boolean with which the embedding takes the branch the code takes
on `solver.check()`: `true` stands for the `unsat` outcome.  The theorem
`solver_unsat_iff` proves it agrees with unsatisfiability of the exact
constraint set the code builds, which is the correctness assumption on Z3. -/
def solverSaysUnsat (detections : List PHIDetection) : Bool :=
  detections.any (fun d => is_prohibited d.category)

/-! ### Results and the verifier -/

/-- Embeds the enum `ComplianceStatus` of `verifier.py`. -/
inductive ComplianceStatus where
  | compliant
  | violation
  | error
deriving DecidableEq, Repr

/-- One `{"id":..., "name":..., "description":...}` record of a
`violated_rules` list in `create_violation_explanation`. -/
structure RuleInfo where
  id : String
  name : String
  description : String
deriving DecidableEq, Repr

/-- One violation record of `create_violation_explanation`: the detection
fields plus the applicable rules. -/
structure ViolationRecord where
  category : String
  value : String
  location_start : Int
  location_end : Int
  confidence : Rat
  violated_rules : List RuleInfo
deriving DecidableEq, Repr

/-- The dictionary returned by `create_violation_explanation`. -/
structure ViolationExplanation where
  num_violations : Nat
  violations : List ViolationRecord
  categories_violated : List String
deriving DecidableEq, Repr

/-- Embeds the dataclass `VerificationResult`.  The metadata dictionary
only ever holds string values (`solver_result`, `error`), so it is an
association list of strings. -/
structure VerificationResult where
  status : ComplianceStatus
  entities : List PHIDetection
  proof : String
  violations : Option ViolationExplanation
  metadata : List (String × String)
deriving DecidableEq, Repr

/-- Lookup in a metadata association list (Python dict access). -/
def metaLookup (metadata : List (String × String)) (key : String) : Option String :=
  (metadata.find? (fun p => p.1 == key)).map (fun p => p.2)

/-- The violation record `create_violation_explanation` appends for one
violating detection. -/
def detectionRecord (d : PHIDetection) : ViolationRecord :=
  { category := d.category
    value := d.value
    location_start := d.start
    location_end := d.endPos
    confidence := d.confidence
    violated_rules := (get_rules_for_category d.category).map (fun r =>
      { id := r.id, name := r.name, description := r.description }) }

/-- Embeds `create_violation_explanation` of `rules.py`.  Its last field is
`list(set(v["category"] for v in violations))`: Python enumerates a hash
set in an order the language does not fix, so the enumeration is a
parameter `setEnum`; every theorem below quantifies over it (constrained,
where the claim needs it, to functions that enumerate distinct elements). -/
def create_violation_explanation (setEnum : List String → List String)
    (detections : List PHIDetection) : ViolationExplanation :=
  let violations := (detections.filter (fun d => is_prohibited d.category)).map detectionRecord
  { num_violations := violations.length
    violations := violations
    categories_violated := setEnum (violations.map (fun v => v.category)) }

/-- The property that pins `setEnum` down to an admissible model of
Python `list(set(...))`: the output lists exactly the distinct elements
of the input, each once.  (Python guarantees nothing about the order.) -/
def SetEnumSpec (setEnum : List String → List String) : Prop :=
  ∀ l : List String, (∀ x, x ∈ setEnum l ↔ x ∈ l) ∧ (setEnum l).Nodup

/-- The line `"=" * 40` used by both proof headers. -/
def eqBar : String := "========================================"

/-- The proof text `verify` builds in its `unsat` (violation) branch. -/
def violationProofText (violations : ViolationExplanation) : String :=
  String.intercalate "\n"
    (["HIPAA VIOLATION DETECTED", eqBar]
     ++ (violations.violations.map (fun v =>
          ["Category: " ++ v.category,
           "  Value: " ++ v.value,
           "  Position: " ++ toString v.location_start ++ "-" ++ toString v.location_end]
          ++ v.violated_rules.map (fun r =>
               "  Violated: " ++ r.id ++ " - " ++ r.description)
          ++ [""])).flatten
     ++ ["Total violations: " ++ toString violations.num_violations,
         "Categories: " ++ String.intercalate ", " violations.categories_violated])

/-- One `"  {cat}: {status}"` line of the compliant proof. -/
def categoryLine (entities : List PHIDetection) (cat : String) : String :=
  "  " ++ cat ++ ": " ++
    (if entities.any (fun e => e.category == cat) then "✗ DETECTED" else "✓ Clear")

/-- The proof text `verify` builds in its `sat` (compliant) branch. -/
def compliantProofText (entities : List PHIDetection) : String :=
  String.intercalate "\n"
    (["HIPAA COMPLIANT", eqBar,
      "No prohibited PHI identifiers detected.",
      "",
      "Verification passed for all 18 HIPAA Safe Harbor categories:"]
     ++ get_prohibited_categories.map (categoryLine entities))

/-- Embeds `HIPAAVerifier.verify`.  The branch on `solver.check()` is taken on
`solverSaysUnsat`, proved equivalent (theorem `solver_unsat_iff`) to
unsatisfiability of `verifyConstraints`, the constraint set the code
hands to Z3. -/
def verify (setEnum : List String → List String)
    (entities : List PHIDetection) : VerificationResult :=
  if solverSaysUnsat entities then
    let violations := create_violation_explanation setEnum entities
    { status := ComplianceStatus.violation
      entities := entities
      proof := violationProofText violations
      violations := some violations
      metadata := [("solver_result", "unsat")] }
  else
    { status := ComplianceStatus.compliant
      entities := entities
      proof := compliantProofText entities
      violations := none
      metadata := [("solver_result", "sat")] }

/-- An extractor passed to `verify_text`: Python callables that may raise
become functions into `Except`, the error carrying `str(e)`. -/
def Extractor : Type :=
  String → Except String (List PHIDetection)

/-- Embeds `HIPAAVerifier.verify_text`: the missing-extractor and raising
extractor cases both produce `Error` results; otherwise it delegates to
`verify`.  Exceptions are modelled by `Except`, so the function is total:
nothing escapes to the caller. -/
def verify_text (setEnum : List String → List String) (text : String)
    (entity_extractor : Option Extractor) : VerificationResult :=
  match entity_extractor with
  | none =>
    { status := ComplianceStatus.error
      entities := []
      proof := "No entity extractor provided. Use verify() with pre-extracted entities."
      violations := none
      metadata := [("error", "no_extractor")] }
  | some extractor =>
    match extractor text with
    | Except.ok entities => verify setEnum entities
    | Except.error e =>
      { status := ComplianceStatus.error
        entities := []
        proof := "Error during verification: " ++ e
        violations := none
        metadata := [("error", e)] }

/-- Embeds `HIPAAVerifier.batch_verify`: the list comprehension
`[self.verify(entities) for entities in documents]`. -/
def batch_verify (setEnum : List String → List String)
    (documents : List (List PHIDetection)) : List VerificationResult :=
  documents.map (verify setEnum)

/-! ### Helper lemmas -/

theorem is_prohibited_iff_mem (c : String) :
    is_prohibited c = true ↔ c ∈ get_prohibited_categories := by
  simp [is_prohibited, List.elem_iff]

/-- The boolean on which `verify` branches agrees with unsatisfiability of
the constraint set the code hands to Z3: `unsat` holds exactly when some
detection carries a prohibited category. -/
theorem solver_unsat_iff (D : List PHIDetection) :
    solverSaysUnsat D = true ↔ ¬ satisfiable (verifyConstraints D) := by
  constructor
  · intro h hsat
    obtain ⟨σ, hσ⟩ := hsat
    rw [solverSaysUnsat, List.any_eq_true] at h
    obtain ⟨d, hd, hdp⟩ := h
    have hmem : d.category ∈ get_prohibited_categories :=
      (is_prohibited_iff_mem d.category).mp hdp
    have hdet : category_detected D d.category = true := by
      rw [category_detected, List.any_eq_true]
      exact ⟨d, hd, by simp⟩
    have heq : ZConstraint.eqBool (categoryVar d.category) true ∈ verifyConstraints D := by
      rw [verifyConstraints]
      refine List.mem_append_left _ ?_
      rw [create_z3_constraints]
      rw [← hdet]
      exact List.mem_map_of_mem _ hmem
    have hvtrue : σ (categoryVar d.category) = true := hσ _ heq
    have hnotOr : (ZConstraint.notOr (get_prohibited_categories.map categoryVar)) ∈
        verifyConstraints D := by
      rw [verifyConstraints]
      exact List.mem_append_right _ (List.mem_singleton.mpr rfl)
    have hvfalse : σ (categoryVar d.category) = false :=
      hσ _ hnotOr (categoryVar d.category) (List.mem_map_of_mem _ hmem)
    rw [hvtrue] at hvfalse
    exact absurd hvfalse (by simp)
  · intro h
    by_contra hne
    apply h
    have hfalse : solverSaysUnsat D = false := by
      cases hb : solverSaysUnsat D
      · rfl
      · exact absurd hb hne
    rw [solverSaysUnsat, List.any_eq_false] at hfalse
    refine ⟨fun _ => false, ?_⟩
    intro c hc
    rw [verifyConstraints] at hc
    rcases List.mem_append.mp hc with hc | hc
    · rw [create_z3_constraints] at hc
      obtain ⟨cat, hcat, rfl⟩ := List.mem_map.mp hc
      show false = category_detected D cat
      cases hdet : category_detected D cat
      · rfl
      · exfalso
        rw [category_detected, List.any_eq_true] at hdet
        obtain ⟨d, hd, hdc⟩ := hdet
        have : d.category = cat := by simpa using hdc
        have : is_prohibited d.category = true := by
          rw [this]
          exact (is_prohibited_iff_mem cat).mpr hcat
        exact absurd this (by simpa using hfalse d hd)
    · have : c = ZConstraint.notOr (get_prohibited_categories.map categoryVar) := by
        simpa using hc
      subst this
      intro v _
      rfl

/-- The function `verify` never produces the `error` status and its status does not
depend on the set-enumeration parameter; the status is `violation`
exactly when `solverSaysUnsat` fires. -/
theorem verify_status_eq (f : List String → List String) (D : List PHIDetection) :
    (verify f D).status =
      (if solverSaysUnsat D then ComplianceStatus.violation else ComplianceStatus.compliant) := by
  rw [verify]
  by_cases h : solverSaysUnsat D <;> simp [h]

/-! ### The claims -/

/-- C1: for every detection list `D`, `verify(D)` has status `Violation`
iff some detection of `D` has one of the 18 prohibited categories, and
otherwise status `Compliant`; moreover the Z3 framing the code uses — the
per-category boolean constraints plus the negated disjunction, `unsat`
meaning violation — is logically equivalent to this direct membership
rule on every input. -/
theorem verify_status_iff_prohibited (f : List String → List String)
    (D : List PHIDetection) :
    ((verify f D).status = ComplianceStatus.violation ↔
       ∃ d ∈ D, is_prohibited d.category = true)
    ∧ ((verify f D).status = ComplianceStatus.compliant ↔
       ¬ ∃ d ∈ D, is_prohibited d.category = true)
    ∧ (¬ satisfiable (verifyConstraints D) ↔ ∃ d ∈ D, is_prohibited d.category = true) := by
  have hb : solverSaysUnsat D = true ↔ ∃ d ∈ D, is_prohibited d.category = true := by
    rw [solverSaysUnsat, List.any_eq_true]
  have hs := verify_status_eq f D
  by_cases h : solverSaysUnsat D
  · rw [if_pos h] at hs
    refine ⟨?_, ?_, ?_⟩
    · simp [hs, hb.mp h]
    · simp [hs, hb.mp h]
    · have hun := (solver_unsat_iff D).mp h
      exact ⟨fun _ => hb.mp h, fun _ => hun⟩
  · have hfalse : solverSaysUnsat D = false := by
      cases hb2 : solverSaysUnsat D
      · rfl
      · exact absurd hb2 h
    have hnex : ¬ ∃ d ∈ D, is_prohibited d.category = true := fun hx => h (hb.mpr hx)
    rw [if_neg h] at hs
    refine ⟨?_, ?_, ?_⟩
    · simp [hs, hnex]
    · simp [hs, hnex]
    · constructor
      · intro hns
        exact absurd ((solver_unsat_iff D).mpr hns) h
      · intro hx
        exact absurd hx hnex

/-- C8: `verify` on the empty detection list is always `Compliant`, with
`violations = none` and the deterministic proof text: the compliant
header followed by one "✓ Clear" line for each of the 18 categories in
catalogue order. -/
theorem verify_empty_compliant (f : List String → List String) :
    (verify f []).status = ComplianceStatus.compliant
    ∧ (verify f []).violations = none
    ∧ (verify f []).proof = String.intercalate "\n"
        (["HIPAA COMPLIANT", eqBar,
          "No prohibited PHI identifiers detected.",
          "",
          "Verification passed for all 18 HIPAA Safe Harbor categories:"]
         ++ get_prohibited_categories.map (fun c => "  " ++ c ++ ": ✓ Clear")) := by
  refine ⟨rfl, rfl, ?_⟩
  rfl

/-- C9: `batch_verify` is exactly one `verify` per input list, order
preserved — elementwise it agrees with `verify` at every index — and on
the empty batch it returns the empty list. -/
theorem batch_verify_eq_map (f : List String → List String)
    (docs : List (List PHIDetection)) :
    batch_verify f docs = docs.map (verify f)
    ∧ (∀ i : Nat, (batch_verify f docs)[i]? = docs[i]?.map (verify f))
    ∧ batch_verify f [] = [] := by
  refine ⟨rfl, ?_, rfl⟩
  intro i
  exact List.getElem?_map (verify f) docs i

/-- C7: whenever the solver outcome selects the `Compliant` result, the
proof text is the compliant header followed by one line per category in
catalogue order, every one marked "✓ Clear" — the "✗ DETECTED" branch of
the line builder is unreachable in the compliant case. -/
theorem compliant_proof_all_clear (f : List String → List String)
    (D : List PHIDetection)
    (h : (verify f D).status = ComplianceStatus.compliant) :
    (verify f D).proof = String.intercalate "\n"
      (["HIPAA COMPLIANT", eqBar,
        "No prohibited PHI identifiers detected.",
        "",
        "Verification passed for all 18 HIPAA Safe Harbor categories:"]
       ++ get_prohibited_categories.map (fun c => "  " ++ c ++ ": ✓ Clear")) := by
  cases hb : solverSaysUnsat D with
  | true =>
    exfalso
    rw [verify, if_pos hb] at h
    exact absurd h (by simp)
  | false =>
    have hneg : ¬ solverSaysUnsat D = true := by simp [hb]
    rw [verify, if_neg hneg]
    show compliantProofText D = _
    rw [compliantProofText]
    congr 2
    apply List.map_congr_left
    intro c hc
    have hany : D.any (fun e => e.category == c) = false := by
      rw [List.any_eq_false]
      intro e he
      rw [solverSaysUnsat, List.any_eq_false] at hb
      have hep := hb e he
      by_contra hec
      have : e.category = c := by simpa using hec
      rw [this, (is_prohibited_iff_mem c).mpr hc] at hep
      exact absurd hep (by simp)
    rw [categoryLine, hany]
    show "  " ++ c ++ ": " ++ "✓ Clear" = _
    rw [String.append_assoc]
    rfl

/-- C4: when the result is a violation, `num_violations` counts every
detection whose category is prohibited — one per detection, with no
deduplication by category or by span. -/
theorem num_violations_counts_detections (f : List String → List String)
    (D : List PHIDetection) (expl : ViolationExplanation)
    (h : (verify f D).violations = some expl) :
    expl.num_violations = D.countP (fun d => is_prohibited d.category) := by
  cases hb : solverSaysUnsat D with
  | false =>
    exfalso
    rw [verify, if_neg (by simp [hb])] at h
    exact absurd h (by simp)
  | true =>
    rw [verify, if_pos hb] at h
    have hexpl : expl = create_violation_explanation f D := by
      have : some (create_violation_explanation f D) = some expl := h
      exact (Option.some.inj this).symm
    subst hexpl
    show ((D.filter (fun d => is_prohibited d.category)).map detectionRecord).length = _
    rw [List.length_map, ← List.countP_eq_length_filter]

/-- Witness for C7 at the empty detection list. -/
theorem compliant_proof_all_clear_witness :
    (verify (fun l => l) []).proof = String.intercalate "\n"
      (["HIPAA COMPLIANT", eqBar,
        "No prohibited PHI identifiers detected.",
        "",
        "Verification passed for all 18 HIPAA Safe Harbor categories:"]
       ++ get_prohibited_categories.map (fun c => "  " ++ c ++ ": ✓ Clear")) :=
  compliant_proof_all_clear (fun l => l) [] rfl

/-- Witness for C4: two NAMES detections with overlapping spans are each
counted, giving a count of two for one category. -/
theorem num_violations_counts_detections_witness :
    (create_violation_explanation (fun l => l)
        [⟨"NAMES", "John Smith", 0, 10, 1⟩, ⟨"NAMES", "Smith", 5, 10, 1⟩]).num_violations
      = List.countP (fun d => is_prohibited d.category)
          [(⟨"NAMES", "John Smith", 0, 10, 1⟩ : PHIDetection), ⟨"NAMES", "Smith", 5, 10, 1⟩] :=
  num_violations_counts_detections (fun l => l)
    [⟨"NAMES", "John Smith", 0, 10, 1⟩, ⟨"NAMES", "Smith", 5, 10, 1⟩]
    (create_violation_explanation (fun l => l)
      [⟨"NAMES", "John Smith", 0, 10, 1⟩, ⟨"NAMES", "Smith", 5, 10, 1⟩])
    rfl

/-- C3: `verify_text` without an extractor is an `Error` result tagged
`no_extractor`; with an extractor that raises, it is an `Error` result
whose proof and `metadata.error` carry the exception text; with an
extractor that returns, it delegates to `verify`.  Exceptions are
modelled by `Except`, and `verify_text` is a total function over them:
no exception reaches the caller in any of the three cases. -/
theorem verify_text_error_handling (f : List String → List String) (text : String) :
    ((verify_text f text none).status = ComplianceStatus.error
      ∧ metaLookup (verify_text f text none).metadata "error" = some "no_extractor")
    ∧ (∀ (g : Extractor) (msg : String), g text = Except.error msg →
        (verify_text f text (some g)).status = ComplianceStatus.error
        ∧ (verify_text f text (some g)).proof = "Error during verification: " ++ msg
        ∧ metaLookup (verify_text f text (some g)).metadata "error" = some msg)
    ∧ (∀ (g : Extractor) (es : List PHIDetection), g text = Except.ok es →
        verify_text f text (some g) = verify f es) := by
  refine ⟨⟨rfl, rfl⟩, ?_, ?_⟩
  · intro g msg hg
    rw [verify_text, hg]
    exact ⟨rfl, rfl, rfl⟩
  · intro g es hg
    rw [verify_text, hg]

/-- Witness for C3 at concrete inputs: the no-extractor case, the
scenario-E extractor raising "boom", and a successful empty extraction. -/
theorem verify_text_error_handling_witness :
    ((verify_text (fun l => l) "x" none).status = ComplianceStatus.error
      ∧ metaLookup (verify_text (fun l => l) "x" none).metadata "error" = some "no_extractor")
    ∧ ((verify_text (fun l => l) "x" (some (fun _ => Except.error "boom"))).status
          = ComplianceStatus.error
      ∧ (verify_text (fun l => l) "x" (some (fun _ => Except.error "boom"))).proof
          = "Error during verification: " ++ "boom"
      ∧ metaLookup (verify_text (fun l => l) "x"
          (some (fun _ => Except.error "boom"))).metadata "error" = some "boom")
    ∧ verify_text (fun l => l) "x" (some (fun _ => Except.ok [])) = verify (fun l => l) [] :=
  ⟨(verify_text_error_handling (fun l => l) "x").1,
   (verify_text_error_handling (fun l => l) "x").2.1 (fun _ => Except.error "boom") "boom" rfl,
   (verify_text_error_handling (fun l => l) "x").2.2 (fun _ => Except.ok []) [] rfl⟩

/-- Boolean check, evaluated once over the whole catalogue: at every
index `i` of the prohibited list, the rules for the category at `i`
include an absolute rule for exactly that category with id `R(i+1)`. -/
def absoluteRuleCheck : Bool :=
  (List.range get_prohibited_categories.length).all (fun i =>
    match get_prohibited_categories[i]? with
    | some c => (get_rules_for_category c).any (fun r =>
        r.prohibition_type == "absolute" && r.categories == [c]
          && r.id == "R" ++ toString (i + 1))
    | none => false)

theorem absoluteRuleCheck_eq_true : absoluteRuleCheck = true := by
  rfl

/-- At every catalogue index `i`, the category there has among its rules
an absolute rule for exactly that category, with id `R(i+1)`. -/
theorem rules_for_prohibited (i : Nat) (c : String)
    (hc : get_prohibited_categories[i]? = some c) :
    ∃ r ∈ get_rules_for_category c,
      r.prohibition_type = "absolute" ∧ r.categories = [c]
        ∧ r.id = "R" ++ toString (i + 1) := by
  have hlen : i < get_prohibited_categories.length := by
    by_contra hge
    rw [List.getElem?_eq_none (Nat.le_of_not_lt hge)] at hc
    exact absurd hc (by simp)
  have hall := absoluteRuleCheck_eq_true
  rw [absoluteRuleCheck, List.all_eq_true] at hall
  have hi := hall i (List.mem_range.mpr hlen)
  rw [hc, List.any_eq_true] at hi
  obtain ⟨r, hr, hprops⟩ := hi
  simp only [Bool.and_eq_true, beq_iff_eq] at hprops
  exact ⟨r, hr, hprops.1.1, hprops.1.2, hprops.2⟩

/-- C6: every violation record carries a non-empty `violated_rules` list
that includes the absolute-prohibition rule declared for exactly the
record's category, with the rule id `R(i+1)` determined by the category's
position `i` in the fixed catalogue (SSN, at index 6, gets R7). -/
theorem violation_records_include_absolute_rule (f : List String → List String)
    (D : List PHIDetection) (expl : ViolationExplanation) (rec : ViolationRecord)
    (h : (verify f D).violations = some expl) (hrec : rec ∈ expl.violations) :
    rec.violated_rules ≠ []
    ∧ ∃ i : Nat, get_prohibited_categories[i]? = some rec.category
        ∧ ∃ r ∈ build_rules, r.prohibition_type = "absolute"
            ∧ r.categories = [rec.category]
            ∧ r.id = "R" ++ toString (i + 1)
            ∧ ({ id := r.id, name := r.name, description := r.description } : RuleInfo)
                ∈ rec.violated_rules := by
  cases hb : solverSaysUnsat D with
  | false =>
    exfalso
    rw [verify, if_neg (by simp [hb])] at h
    exact absurd h (by simp)
  | true =>
    rw [verify, if_pos hb] at h
    have hexpl : expl = create_violation_explanation f D := (Option.some.inj h).symm
    subst hexpl
    have hrec2 : rec ∈ (D.filter (fun d => is_prohibited d.category)).map detectionRecord :=
      hrec
    obtain ⟨d, hd, hrd⟩ := List.mem_map.mp hrec2
    have hdp : is_prohibited d.category = true := (List.mem_filter.mp hd).2
    have hmem : d.category ∈ get_prohibited_categories := (is_prohibited_iff_mem _).mp hdp
    obtain ⟨i, hi⟩ := List.mem_iff_getElem?.mp hmem
    have hcat : rec.category = d.category := by
      rw [← hrd]
      rfl
    obtain ⟨r, hr, habs, hcats, hid⟩ := rules_for_prohibited i d.category hi
    have hrules : rec.violated_rules
        = (get_rules_for_category d.category).map (fun r =>
            ({ id := r.id, name := r.name, description := r.description } : RuleInfo)) := by
      rw [← hrd]
      rfl
    have hmemri : ({ id := r.id, name := r.name, description := r.description } : RuleInfo)
        ∈ rec.violated_rules := by
      rw [hrules]
      exact List.mem_map_of_mem _ hr
    refine ⟨List.ne_nil_of_mem hmemri, i, ?_, r, List.mem_of_mem_filter hr, habs, ?_, hid,
      hmemri⟩
    · rw [hcat]
      exact hi
    · rw [hcat]
      exact hcats

/-- Witness for C6 at a concrete input: one SSN detection, whose record
gets rule R7. -/
theorem violation_records_include_absolute_rule_witness :
    (detectionRecord ⟨"SSN", "123-45-6789", 0, 11, 1⟩).violated_rules ≠ []
    ∧ ∃ i : Nat, get_prohibited_categories[i]? =
          some (detectionRecord ⟨"SSN", "123-45-6789", 0, 11, 1⟩).category
        ∧ ∃ r ∈ build_rules, r.prohibition_type = "absolute"
            ∧ r.categories = [(detectionRecord ⟨"SSN", "123-45-6789", 0, 11, 1⟩).category]
            ∧ r.id = "R" ++ toString (i + 1)
            ∧ ({ id := r.id, name := r.name, description := r.description } : RuleInfo)
                ∈ (detectionRecord ⟨"SSN", "123-45-6789", 0, 11, 1⟩).violated_rules :=
  violation_records_include_absolute_rule (fun l => l) [⟨"SSN", "123-45-6789", 0, 11, 1⟩]
    (create_violation_explanation (fun l => l) [⟨"SSN", "123-45-6789", 0, 11, 1⟩])
    (detectionRecord ⟨"SSN", "123-45-6789", 0, 11, 1⟩)
    rfl (List.mem_singleton.mpr rfl)

/-- Filtering on a predicate of the category and projecting to categories
commutes with replacing a detection list by any list with the same
category sequence. -/
theorem filter_map_category_congr (p : String → Bool) (D1 : List PHIDetection) :
    ∀ D2 : List PHIDetection,
      D1.map (fun d => d.category) = D2.map (fun d => d.category) →
      (D1.filter (fun d => p d.category)).map (fun d => d.category)
        = (D2.filter (fun d => p d.category)).map (fun d => d.category) := by
  induction D1 with
  | nil =>
    intro D2 h
    cases D2 with
    | nil => rfl
    | cons d2 t2 => exact absurd h (by simp)
  | cons d1 t1 ih =>
    intro D2 h
    cases D2 with
    | nil => exact absurd h (by simp)
    | cons d2 t2 =>
      simp only [List.map_cons, List.cons.injEq] at h
      obtain ⟨hc, ht⟩ := h
      simp only [List.filter_cons, hc]
      by_cases hp : p d2.category
      · simp [hp, hc, ih t2 ht]
      · simp [hp, ih t2 ht]

/-- The verdict boolean depends only on the category sequence. -/
theorem solverSaysUnsat_congr (D1 D2 : List PHIDetection)
    (h : D1.map (fun d => d.category) = D2.map (fun d => d.category)) :
    solverSaysUnsat D1 = solverSaysUnsat D2 := by
  have key : ∀ D : List PHIDetection,
      solverSaysUnsat D = (D.map (fun d => d.category)).any is_prohibited := by
    intro D
    induction D with
    | nil => rfl
    | cons d t ih =>
      simp [solverSaysUnsat, List.any_cons] at ih ⊢
      rw [ih]
  rw [key D1, key D2, h]

/-- The explanation's count as a function of the category sequence. -/
theorem num_violations_eq_countP_map (f : List String → List String)
    (D : List PHIDetection) :
    (create_violation_explanation f D).num_violations
      = (D.map (fun d => d.category)).countP is_prohibited := by
  show ((D.filter (fun d => is_prohibited d.category)).map detectionRecord).length = _
  rw [List.length_map, ← List.countP_eq_length_filter, List.countP_map]
  rfl

/-- The explanation's category list as a function of the violated
category sequence. -/
theorem categories_violated_eq (f : List String → List String)
    (D : List PHIDetection) :
    (create_violation_explanation f D).categories_violated
      = f ((D.filter (fun d => is_prohibited d.category)).map (fun d => d.category)) := by
  show f (((D.filter (fun d => is_prohibited d.category)).map detectionRecord).map
    (fun v => v.category)) = _
  rw [List.map_map]
  rfl

/-- C10: the verdict depends only on the sequence of category names —
two detection lists that agree pairwise on category but differ in value,
span or confidence get the same status, the same violation count, and the
same `categories_violated`; in particular a confidence of 1/100 triggers
a violation exactly as a confidence of 1 does. -/
theorem verify_depends_only_on_categories (f : List String → List String)
    (D1 D2 : List PHIDetection)
    (h : D1.map (fun d => d.category) = D2.map (fun d => d.category)) :
    (verify f D1).status = (verify f D2).status
    ∧ (verify f D1).violations.map (fun e => e.num_violations)
        = (verify f D2).violations.map (fun e => e.num_violations)
    ∧ (verify f D1).violations.map (fun e => e.categories_violated)
        = (verify f D2).violations.map (fun e => e.categories_violated) := by
  have hsb := solverSaysUnsat_congr D1 D2 h
  cases hb : solverSaysUnsat D1 with
  | true =>
    have hb2 : solverSaysUnsat D2 = true := by rw [← hsb]; exact hb
    rw [verify, verify, if_pos hb, if_pos hb2]
    refine ⟨rfl, ?_, ?_⟩
    · show some (create_violation_explanation f D1).num_violations
        = some (create_violation_explanation f D2).num_violations
      rw [num_violations_eq_countP_map, num_violations_eq_countP_map, h]
    · show some (create_violation_explanation f D1).categories_violated
        = some (create_violation_explanation f D2).categories_violated
      rw [categories_violated_eq, categories_violated_eq,
        filter_map_category_congr is_prohibited D1 D2 h]
  | false =>
    have hb2 : solverSaysUnsat D2 = false := by rw [← hsb]; exact hb
    rw [verify, verify, if_neg (by simp [hb]), if_neg (by simp [hb2])]
    exact ⟨rfl, rfl, rfl⟩

/-- Witness for C10: a NAMES detection at confidence 19/20 and at
confidence 1/100 give the same status, count and violated categories. -/
theorem verify_depends_only_on_categories_witness :
    (verify (fun l => l) [⟨"NAMES", "John Smith", 0, 10, 19/20⟩]).status
      = (verify (fun l => l) [⟨"NAMES", "X", 5, 6, 1/100⟩]).status
    ∧ (verify (fun l => l) [⟨"NAMES", "John Smith", 0, 10, 19/20⟩]).violations.map
        (fun e => e.num_violations)
      = (verify (fun l => l) [⟨"NAMES", "X", 5, 6, 1/100⟩]).violations.map
        (fun e => e.num_violations)
    ∧ (verify (fun l => l) [⟨"NAMES", "John Smith", 0, 10, 19/20⟩]).violations.map
        (fun e => e.categories_violated)
      = (verify (fun l => l) [⟨"NAMES", "X", 5, 6, 1/100⟩]).violations.map
        (fun e => e.categories_violated) :=
  verify_depends_only_on_categories (fun l => l)
    [⟨"NAMES", "John Smith", 0, 10, 19/20⟩] [⟨"NAMES", "X", 5, 6, 1/100⟩] rfl

/-- Keep the first occurrence of each element, dropping later repeats;
`seen` accumulates the elements already emitted. -/
def firstOccAux : List String → List String → List String
  | [], _ => []
  | x :: xs, seen =>
    if seen.contains x then firstOccAux xs seen else x :: firstOccAux xs (x :: seen)

/-- Distinct elements in first-occurrence order: the reading the spec
gives for `categories_violated`. -/
def firstOccurrenceOrder (l : List String) : List String :=
  firstOccAux l []

theorem mem_firstOccAux (x : String) :
    ∀ (l seen : List String), x ∈ firstOccAux l seen ↔ x ∈ l ∧ x ∉ seen := by
  intro l
  induction l with
  | nil =>
    intro seen
    simp [firstOccAux]
  | cons y ys ih =>
    intro seen
    rw [firstOccAux]
    by_cases hy : seen.contains y
    · have hyseen : y ∈ seen := List.elem_iff.mp hy
      rw [if_pos hy, ih seen]
      constructor
      · rintro ⟨hx, hns⟩
        exact ⟨List.mem_cons_of_mem _ hx, hns⟩
      · rintro ⟨hx, hns⟩
        rcases List.mem_cons.mp hx with rfl | hx
        · exact absurd hyseen hns
        · exact ⟨hx, hns⟩
    · have hyseen : y ∉ seen := fun hm => hy (List.elem_iff.mpr hm)
      rw [if_neg hy]
      constructor
      · intro hx
        rcases List.mem_cons.mp hx with rfl | hx
        · exact ⟨List.mem_cons_self _ _, hyseen⟩
        · obtain ⟨hxys, hxs⟩ := (ih (y :: seen)).mp hx
          exact ⟨List.mem_cons_of_mem _ hxys,
            fun hm => hxs (List.mem_cons_of_mem _ hm)⟩
      · rintro ⟨hx, hns⟩
        rcases List.mem_cons.mp hx with rfl | hx
        · exact List.mem_cons_self _ _
        · by_cases hxy : x = y
          · subst hxy
            exact List.mem_cons_self _ _
          · refine List.mem_cons_of_mem _ ((ih (y :: seen)).mpr ⟨hx, ?_⟩)
            intro hm
            rcases List.mem_cons.mp hm with h1 | h1
            · exact hxy h1
            · exact hns h1

theorem nodup_firstOccAux :
    ∀ (l seen : List String), (firstOccAux l seen).Nodup := by
  intro l
  induction l with
  | nil =>
    intro seen
    simp [firstOccAux]
  | cons y ys ih =>
    intro seen
    rw [firstOccAux]
    by_cases hy : seen.contains y
    · rw [if_pos hy]
      exact ih seen
    · rw [if_neg hy, List.nodup_cons]
      refine ⟨?_, ih (y :: seen)⟩
      intro hmem
      exact ((mem_firstOccAux y ys (y :: seen)).mp hmem).2 (List.mem_cons_self y seen)

/-- First-occurrence deduplication is one admissible set enumeration. -/
theorem firstOccurrenceOrder_setEnumSpec : SetEnumSpec firstOccurrenceOrder := by
  intro l
  refine ⟨?_, nodup_firstOccAux l []⟩
  intro x
  rw [firstOccurrenceOrder, mem_firstOccAux]
  simp

/-- Reversed first-occurrence deduplication is another admissible set
enumeration — Python promises nothing about the order. -/
theorem reverse_firstOccurrenceOrder_setEnumSpec :
    SetEnumSpec (fun l => (firstOccurrenceOrder l).reverse) := by
  intro l
  constructor
  · intro x
    rw [List.mem_reverse, firstOccurrenceOrder, mem_firstOccAux]
    simp
  · rw [List.nodup_reverse]
    exact nodup_firstOccAux l []

/-- The claim C2 takes literally: under every admissible model of the
Python set enumeration, `categories_violated` equals the distinct
violated categories in first-occurrence order. -/
def categoriesViolatedFirstOccurrence : Prop :=
  ∀ setEnum : List String → List String, SetEnumSpec setEnum →
    ∀ (D : List PHIDetection) (expl : ViolationExplanation),
      (verify setEnum D).violations = some expl →
      expl.categories_violated = firstOccurrenceOrder
        ((D.filter (fun d => is_prohibited d.category)).map (fun d => d.category))

/-- C2 counterexample: `categories_violated` is
`list(set(v["category"] for v in violations))`, a function of the hash
set only, whose enumeration order Python does not specify — so the claim
fails under an admissible enumeration: on the two-detection input
NAMES then SSN, the reversed-dedup enumeration yields
["SSN", "NAMES"], not the first-occurrence order ["NAMES", "SSN"]. -/
theorem categories_violated_not_first_occurrence :
    ¬ categoriesViolatedFirstOccurrence := by
  intro hclaim
  have h := hclaim (fun l => (firstOccurrenceOrder l).reverse)
    reverse_firstOccurrenceOrder_setEnumSpec
    [⟨"NAMES", "John", 0, 4, 1⟩, ⟨"SSN", "123-45-6789", 5, 16, 1⟩]
    (create_violation_explanation (fun l => (firstOccurrenceOrder l).reverse)
      [⟨"NAMES", "John", 0, 4, 1⟩, ⟨"SSN", "123-45-6789", 5, 16, 1⟩])
    rfl
  exact absurd h (by decide)

/-- C2 (amended): for every violation result, `categories_violated`
enumerates exactly the distinct violated categories, each exactly once;
the order is the unspecified Python set-enumeration order, not
necessarily first-occurrence order. -/
theorem categories_violated_distinct (setEnum : List String → List String)
    (hse : SetEnumSpec setEnum) (D : List PHIDetection) (expl : ViolationExplanation)
    (h : (verify setEnum D).violations = some expl) :
    (∀ c, c ∈ expl.categories_violated ↔
        ∃ d ∈ D, is_prohibited d.category = true ∧ d.category = c)
    ∧ expl.categories_violated.Nodup := by
  cases hb : solverSaysUnsat D with
  | false =>
    exfalso
    rw [verify, if_neg (by simp [hb])] at h
    exact absurd h (by simp)
  | true =>
    rw [verify, if_pos hb] at h
    have hexpl : expl = create_violation_explanation setEnum D := (Option.some.inj h).symm
    subst hexpl
    rw [categories_violated_eq]
    obtain ⟨hmem, hnd⟩ :=
      hse ((D.filter (fun d => is_prohibited d.category)).map (fun d => d.category))
    refine ⟨?_, hnd⟩
    intro c
    rw [hmem c]
    simp only [List.mem_map, List.mem_filter]
    constructor
    · rintro ⟨d, ⟨hd, hp⟩, hc⟩
      exact ⟨d, hd, hp, hc⟩
    · rintro ⟨d, hd, hp, hc⟩
      exact ⟨d, ⟨hd, hp⟩, hc⟩

/-- Witness for the amended C2 at a concrete input: with the
first-occurrence enumeration and the two-detection input NAMES, SSN. -/
theorem categories_violated_distinct_witness :
    (∀ c, c ∈ (create_violation_explanation firstOccurrenceOrder
        [⟨"NAMES", "John", 0, 4, 1⟩, ⟨"SSN", "123-45-6789", 5, 16, 1⟩]).categories_violated ↔
        ∃ d ∈ [(⟨"NAMES", "John", 0, 4, 1⟩ : PHIDetection), ⟨"SSN", "123-45-6789", 5, 16, 1⟩],
          is_prohibited d.category = true ∧ d.category = c)
    ∧ (create_violation_explanation firstOccurrenceOrder
        [⟨"NAMES", "John", 0, 4, 1⟩, ⟨"SSN", "123-45-6789", 5, 16, 1⟩]).categories_violated.Nodup :=
  categories_violated_distinct firstOccurrenceOrder firstOccurrenceOrder_setEnumSpec
    [⟨"NAMES", "John", 0, 4, 1⟩, ⟨"SSN", "123-45-6789", 5, 16, 1⟩]
    (create_violation_explanation firstOccurrenceOrder
      [⟨"NAMES", "John", 0, 4, 1⟩, ⟨"SSN", "123-45-6789", 5, 16, 1⟩])
    rfl

/-! ### The wire constructor `verify_from_json` -/

/-- A parsed JSON value: the input of `verify_from_json` after
`json.loads`.  Integers and other numbers get separate constructors so
that `start`/`end` stay integers. -/
inductive JValue where
  | null
  | bool (b : Bool)
  | int (n : Int)
  | num (q : Rat)
  | str (s : String)
  | arr (elements : List JValue)
  | obj (fields : List (String × JValue))

/-- Dictionary field access (`e["k"]` / `e.get("k")`). -/
def jLookup (fields : List (String × JValue)) (key : String) : Option JValue :=
  (fields.find? (fun p => p.1 == key)).map (fun p => p.2)

/-- Embeds `e.get(key, dflt)` for a string field.  A present field of a
non-string JSON type is modelled as an error: the claims only concern
well-typed wire records. -/
def getStrD (fields : List (String × JValue)) (key : String) (dflt : String) :
    Except String String :=
  match jLookup fields key with
  | none => Except.ok dflt
  | some (JValue.str s) => Except.ok s
  | some _ => Except.error ("unsupported value type for " ++ key)

/-- Embeds `e.get(key, dflt)` for an integer field. -/
def getIntD (fields : List (String × JValue)) (key : String) (dflt : Int) :
    Except String Int :=
  match jLookup fields key with
  | none => Except.ok dflt
  | some (JValue.int n) => Except.ok n
  | some _ => Except.error ("unsupported value type for " ++ key)

/-- Embeds `e.get(key, dflt)` for a numeric field. -/
def getRatD (fields : List (String × JValue)) (key : String) (dflt : Rat) :
    Except String Rat :=
  match jLookup fields key with
  | none => Except.ok dflt
  | some (JValue.num q) => Except.ok q
  | some (JValue.int n) => Except.ok (n : Rat)
  | some _ => Except.error ("unsupported value type for " ++ key)

/-- Embeds the record constructor inside `verify_from_json`:
`PHIDetection(category=e["category"], value=e.get("value", ""),
start=e.get("start", 0), end=e.get("end", 0),
confidence=e.get("confidence", 1.0))` — a missing `category` raises
`KeyError`, omitted optional fields get the defaults. -/
def parseDetection (j : JValue) : Except String PHIDetection :=
  match j with
  | JValue.obj fields =>
    match jLookup fields "category" with
    | some (JValue.str c) =>
      match getStrD fields "value" "", getIntD fields "start" 0,
          getIntD fields "end" 0, getRatD fields "confidence" 1 with
      | Except.ok v, Except.ok s, Except.ok e, Except.ok conf =>
        Except.ok ⟨c, v, s, e, conf⟩
      | Except.error e, _, _, _ => Except.error e
      | _, Except.error e, _, _ => Except.error e
      | _, _, Except.error e, _ => Except.error e
      | _, _, _, Except.error e => Except.error e
    | some _ => Except.error "unsupported value type for category"
    | none => Except.error "KeyError: category"
  | _ => Except.error "TypeError: detection record is not an object"

/-- Embeds `verify_from_json` of `verifier.py`, faithful to the Python
attribute semantics of `entities_json.get("entities", entities_json)`:
on a dict it looks the key up, falling back to the dict itself (whose
iteration yields its keys — strings, which cannot be indexed by
`"category"`, so any non-empty fallback dict raises `TypeError`); on a
list — or any other value — the attribute access `.get` itself raises
`AttributeError`, so the bare-list shape is rejected before any record
is read. -/
def verify_from_json (setEnum : List String → List String) (entities_json : JValue) :
    Except String VerificationResult :=
  match entities_json with
  | JValue.obj fields =>
    match (jLookup fields "entities").getD (JValue.obj fields) with
    | JValue.arr elements =>
      match elements.mapM parseDetection with
      | Except.ok entities => Except.ok (verify setEnum entities)
      | Except.error e => Except.error e
    | JValue.obj fields2 =>
      if fields2.isEmpty then Except.ok (verify setEnum [])
      else Except.error "TypeError: string indices must be integers"
    | JValue.str s =>
      if s.isEmpty then Except.ok (verify setEnum [])
      else Except.error "TypeError: string indices must be integers"
    | _ => Except.error "TypeError: value is not iterable"
  | JValue.arr _ => Except.error "AttributeError: list object has no attribute get"
  | _ => Except.error "AttributeError: value has no attribute get"

/-- C5 (code bug): the `{"entities": [...]}` shape is accepted and
omitted record fields get the defaults `value=""`, `start=0`, `end=0`,
`confidence=1`; inputs of neither shape fail with an error; but a bare
list of records — which the spec and the repository test
`test_verify_from_json_direct_list` say is accepted — hits the
attribute access `entities_json.get("entities", entities_json)` and
raises `AttributeError`, because Python lists have no `get`. -/
theorem verify_from_json_shapes (f : List String → List String) :
    (verify_from_json f (JValue.obj [("entities",
        JValue.arr [JValue.obj [("category", JValue.str "NAMES")]])])
       = Except.ok (verify f [⟨"NAMES", "", 0, 0, 1⟩]))
    ∧ (verify_from_json f (JValue.int 5)
       = Except.error "AttributeError: value has no attribute get")
    ∧ (verify_from_json f (JValue.arr [JValue.obj
          [("category", JValue.str "EMAIL_ADDRESSES"),
           ("value", JValue.str "test@example.com"),
           ("start", JValue.int 0), ("end", JValue.int 16),
           ("confidence", JValue.num (22 / 25))]])
       = Except.error "AttributeError: list object has no attribute get") :=
  ⟨rfl, rfl, rfl⟩

end AareEdge
